import Mathlib

/-!
A verification development for the Riegeli record-reader pipeline
(`riegeli/records/record_reader.cc`).

The state machine of `RecordReaderBase` is embedded shallowly:
`ReadRecord` (fast path plus `ReadRecordSlow`), `Recover`,
`Seek(RecordPosition)`, `Seek(Position)`, `ReadSerializedMetadata` /
`ParseMetadata` and `CheckFileFormat` are translated from
`record_reader.cc`.  The collaborating layers that `record_reader.cc`
drives through their interfaces — the chunk reader, the chunk decoder,
the transposed decoder, `pos()` and `TryRecovery()` from the header —
are not part of the sources at hand, so they are modelled from the
specification of the record-reader pipeline (each such definition says
so in its doc comment).  A file is abstracted as the list of its chunks;
byte positions are the cumulated on-disk chunk footprints (a 40-byte
chunk header plus the padded payload), which is all the record-reader
state machine observes through the chunk-reader interface.
-/

namespace Riegeli

/-- Error kinds surfaced by the reader (`canonical_errors`). -/
inductive ErrKind where
  | dataLoss
  | failedPrecondition
  | other
deriving DecidableEq, Repr

/-- Health of an `Object`: healthy, or failed with an error kind and message. -/
inductive Status where
  | healthy
  | failed (kind : ErrKind) (msg : String)
deriving DecidableEq, Repr

/-- The message of a status (empty when healthy), as `status().message()`. -/
def statusMsg : Status → String
  | .healthy => ""
  | .failed _ m => m

/-- `RecordReaderBase::Recoverable`: which layer a recovery applies to. -/
inductive Recoverable where
  | no
  | chunkReader
  | chunkDecoder
deriving DecidableEq, Repr

/-- Chunk types of the Riegeli file format. -/
inductive ChunkType where
  | fileSignature
  | fileMetadata
  | padding
  | simple
  | transposed
deriving DecidableEq, Repr

/-- Modelled from the spec: one chunk of a file, as seen through the
chunk-reader and chunk-decoder interfaces.  `records` are the record
byte strings (their number is the header's `num_records`);
`payloadSize` is the padded payload footprint on disk, so the chunk
occupies `40 + payloadSize` bytes; `hdrCorrupt` makes the chunk reader
fail on it (header-hash mismatch), `corrupt` makes the chunk decoder's
`Decode` fail (payload damage); `decRecoverOk` tells whether the chunk
decoder's own `Recover()` succeeds after such a failure; `metaContent`
is the serialized metadata message a `FileMetadata` chunk decodes to. -/
structure ChunkMeta where
  ctype : ChunkType
  records : List (List Nat)
  payloadSize : Nat
  hdrCorrupt : Bool
  corrupt : Bool
  decRecoverOk : Bool
  metaContent : List Nat
deriving DecidableEq, Repr

/-- On-disk footprint of a chunk: 40-byte header plus padded payload. -/
def chunkSize (c : ChunkMeta) : Nat := 40 + c.payloadSize

/-- Total byte size of a file given as its chunk list. -/
def fileSize : List ChunkMeta → Nat
  | [] => 0
  | c :: rest => chunkSize c + fileSize rest

/-- The chunk whose header starts exactly at byte `p`, walking the
chunks from byte `base`. -/
def chunkStartingAt : List ChunkMeta → Nat → Nat → Option ChunkMeta
  | [], _, _ => none
  | c :: rest, base, p =>
      if p = base then some c else chunkStartingAt rest (base + chunkSize c) p

/-- Modelled from the spec: the position of the chunk containing record
position `p`, walking from byte `base`.  A chunk starting at `B` with
`n` records covers the record positions `B ≤ p ≤ B + n`; a position
falling after all records of a chunk belongs to the next chunk.  When no
chunk covers `p` the end of file is returned. -/
def containingPos : List ChunkMeta → Nat → Nat → Nat
  | [], base, _ => base
  | c :: rest, base, p =>
      if p ≤ base + c.records.length then base
      else containingPos rest (base + chunkSize c) p

/-- A skipped region reported by recovery: the byte range
`[begin, endPos)` bridged, with the reason message. -/
structure SkippedRegion where
  begin : Nat
  endPos : Nat
  msg : String
deriving DecidableEq, Repr

/-- State of the chunk reader: its byte position and its health. -/
structure SrcState where
  pos : Nat
  status : Status
deriving DecidableEq, Repr

/-- Result of `ChunkReader::ReadChunk` / `PullChunkHeader`. -/
inductive SrcRead where
  | ok (c : ChunkMeta)
  | eof
  | fail
deriving DecidableEq, Repr

/-- Modelled from the spec: `ChunkReader::ReadChunk`.  At a valid chunk
boundary the chunk is returned and the position advances past it; at end
of file it returns `eof` leaving the reader healthy; a damaged header
(or an invalid boundary) is a data-loss failure. -/
def srcReadChunk (f : List ChunkMeta) (st : SrcState) : SrcRead × SrcState :=
  if st.status ≠ .healthy then (.fail, st)
  else match chunkStartingAt f 0 st.pos with
    | some c =>
        if c.hdrCorrupt then
          (.fail, { st with status := .failed .dataLoss "corrupted chunk header" })
        else (.ok c, { st with pos := st.pos + chunkSize c })
    | none =>
        if fileSize f ≤ st.pos then (.eof, st)
        else (.fail, { st with status := .failed .dataLoss "invalid chunk boundary" })

/-- Modelled from the spec: `ChunkReader::PullChunkHeader` — like
`ReadChunk` but peeking: the position does not move. -/
def srcPullChunkHeader (f : List ChunkMeta) (st : SrcState) : SrcRead × SrcState :=
  if st.status ≠ .healthy then (.fail, st)
  else match chunkStartingAt f 0 st.pos with
    | some c =>
        if c.hdrCorrupt then
          (.fail, { st with status := .failed .dataLoss "corrupted chunk header" })
        else (.ok c, st)
    | none =>
        if fileSize f ≤ st.pos then (.eof, st)
        else (.fail, { st with status := .failed .dataLoss "invalid chunk boundary" })

/-- Modelled from the spec: `ChunkReader::Seek` to an exact byte
position asserted to be a chunk boundary. -/
def srcSeek (st : SrcState) (p : Nat) : Bool × SrcState :=
  (true, { st with pos := p })

/-- Modelled from the spec: `ChunkReader::SeekToChunkContaining`. -/
def srcSeekToChunkContaining (f : List ChunkMeta) (st : SrcState) (p : Nat) :
    Bool × SrcState :=
  (true, { st with pos := containingPos f 0 p })

/-- Modelled from the spec: `ChunkReader::Recover` — advance past the
damaged chunk to the next chunk boundary (end of file is a legal
terminal state), reporting the spanned region.  The modelled recovery
always finds a resumption point. -/
def srcRecover (f : List ChunkMeta) (st : SrcState) : SkippedRegion × SrcState :=
  let e := match chunkStartingAt f 0 st.pos with
    | some c => st.pos + chunkSize c
    | none => if st.pos < fileSize f then fileSize f else st.pos
  (⟨st.pos, e, statusMsg st.status⟩, ⟨e, .healthy⟩)

/-- Modelled from the spec: `ChunkReader::CheckFileFormat` — verify that
the file starts with a valid `FileSignature` chunk.  An empty file
returns `false` leaving the reader healthy. -/
def srcCheckFileFormat (f : List ChunkMeta) (st : SrcState) : Bool × SrcState :=
  if st.status ≠ .healthy then (false, st)
  else match f with
    | [] => (false, st)
    | c :: _ =>
        if c.hdrCorrupt then
          (false, { st with status := .failed .dataLoss "corrupted chunk header" })
        else if c.ctype = .fileSignature then (true, st)
        else (false, { st with status := .failed .dataLoss "invalid file signature" })

/-- Modelled from the spec: state of the chunk decoder — its health, the
decoded record slices and the current record index.  `recOk` records
whether its `Recover()` will succeed after a failure. -/
structure ChunkDecoder where
  ok : Bool
  recOk : Bool
  records : List (List Nat)
  index : Nat
deriving DecidableEq, Repr

/-- `ChunkDecoder::Clear()`: an empty healthy decoder. -/
def decClear : ChunkDecoder := ⟨true, true, [], 0⟩

/-- The error message of a failed chunk decode. -/
def decErrMsg : String := "invalid chunk"

/-- Modelled from the spec: `ChunkDecoder::Decode` — parse a chunk into
record slices; damage in the payload is a failure that leaves the
decoder unhealthy and empty. -/
def decDecode (c : ChunkMeta) : ChunkDecoder :=
  if c.corrupt then ⟨false, c.decRecoverOk, [], 0⟩
  else ⟨true, true, c.records, 0⟩

/-- Modelled from the spec: `ChunkDecoder::ReadRecord` — yield the
record at the current index and advance, failing when unhealthy or
past the last record. -/
def decReadRecord (d : ChunkDecoder) : Option (List Nat × ChunkDecoder) :=
  if d.ok then
    match d.records.get? d.index with
    | some r => some (r, { d with index := d.index + 1 })
    | none => none
  else none

/-- Modelled from the spec: `ChunkDecoder::Recover` — keep the records
preceding the damage, abandon the rest; may fail (`none`). -/
def decRecover (d : ChunkDecoder) : Option ChunkDecoder :=
  if d.ok then some d
  else if d.recOk then some ⟨true, true, d.records.take d.index, d.index⟩
  else none

/-- `ChunkDecoder::SetIndex`: clamp the requested index to the number of
records. -/
def decSetIndex (d : ChunkDecoder) (i : Nat) : ChunkDecoder :=
  { d with index := min i d.records.length }

/-- A record position: the byte offset of the chunk header and the
record index within the chunk (`record_position.h`). -/
structure RecordPosition where
  chunkBegin : Nat
  recordIndex : Nat
deriving DecidableEq, Repr

/-- The numeric value of a record position. -/
def RecordPosition.numeric (p : RecordPosition) : Nat :=
  p.chunkBegin + p.recordIndex

/-- Lexicographic order on record positions. -/
def rpLe (a b : RecordPosition) : Prop :=
  a.chunkBegin < b.chunkBegin ∨
    (a.chunkBegin = b.chunkBegin ∧ a.recordIndex ≤ b.recordIndex)

instance (a b : RecordPosition) : Decidable (rpLe a b) := by
  unfold rpLe; infer_instance

/-- State of `RecordReaderBase`: health, `chunk_begin_`, the chunk
decoder, the `recoverable_` tag, the optional recovery callback and the
chunk reader it reads from. -/
structure RRState where
  status : Status
  chunkBegin : Nat
  dec : ChunkDecoder
  recoverable : Recoverable
  recovery : Option (SkippedRegion → Bool)
  src : SrcState

/-- The freshly initialized reader (`RecordReaderBase::Initialize`):
`chunk_begin_ = src->pos()`, cleared decoder, nothing recoverable. -/
def initRR (src : SrcState) : RRState :=
  ⟨.healthy, src.pos, decClear, .no, none, src⟩

/-- Modelled from the spec: `pos()` — the current logical position:
inside a partially consumed chunk it is `(chunk_begin_, index)`, past
the decoded records it is the chunk-reader position with index 0. -/
def rrPos (s : RRState) : RecordPosition :=
  if s.dec.index < s.dec.records.length then ⟨s.chunkBegin, s.dec.index⟩
  else ⟨s.src.pos, 0⟩

/-- `RecordReaderBase::Recover` (`record_reader.cc:315`): when
`recoverable_` is set, snapshot the message, clear the tag and the
failure, then dispatch: at the chunk-reader level delegate to the chunk
reader's recovery; at the chunk-decoder level report the region from
`chunk_begin_ + index` to the current position and attempt the decoder's
own recovery, clearing the decoder when that fails. -/
def recover (f : List ChunkMeta) (s : RRState) :
    Bool × Option SkippedRegion × RRState :=
  if s.recoverable = .no then (false, none, s)
  else
    let saved := statusMsg s.status
    let which := s.recoverable
    let s₀ : RRState := { s with recoverable := .no, status := .healthy }
    match which with
    | .no => (false, none, s₀)
    | .chunkReader =>
        let (region, src') := srcRecover f s₀.src
        (true, some region, { s₀ with src := src' })
    | .chunkDecoder =>
        let indexBefore := s₀.dec.index
        let dec' := match decRecover s₀.dec with
          | some d => d
          | none => decClear
        let s₁ : RRState := { s₀ with dec := dec' }
        (true, some ⟨s₁.chunkBegin + indexBefore, (rrPos s₁).numeric, saved⟩, s₁)

/-- Modelled from the spec: `TryRecovery()` — when a recovery callback
is installed, run `Recover` and invoke the callback on the skipped
region; its return value decides whether to continue (`true`) or
re-fail with the original message (`false`).  Without a callback
nothing is attempted. -/
def tryRecovery (f : List ChunkMeta) (s : RRState) : Bool × RRState :=
  match s.recovery with
  | none => (false, s)
  | some cb =>
      let orig := statusMsg s.status
      match recover f s with
      | (false, _, s') => (false, s')
      | (true, none, s') => (true, s')
      | (true, some region, s') =>
          if cb region then (true, s')
          else (false, { s' with status := .failed .dataLoss orig })

/-- `RecordReaderBase::ReadChunk` (`record_reader.cc:428`): set
`chunk_begin_` to the chunk-reader position and read the next chunk;
on a chunk-reader failure clear the decoder and fail at the chunk-reader
level (clean end of file returns `false` healthy); on a decode failure
fail at the chunk-decoder level. -/
def readChunk (f : List ChunkMeta) (s : RRState) : Bool × RRState :=
  match srcReadChunk f s.src with
  | (.eof, src') =>
      (false, { s with chunkBegin := s.src.pos, src := src', dec := decClear })
  | (.fail, src') =>
      (false, { s with chunkBegin := s.src.pos, src := src', dec := decClear,
                       recoverable := .chunkReader, status := src'.status })
  | (.ok c, src') =>
      if (decDecode c).ok then
        (true, { s with chunkBegin := s.src.pos, src := src', dec := decDecode c })
      else
        (false, { s with chunkBegin := s.src.pos, src := src', dec := decDecode c,
                         recoverable := .chunkDecoder,
                         status := .failed .dataLoss decErrMsg })

/-- Popping one record from the reader's decoder, reporting the key
`(chunk_begin_, index − 1)` — the successful exit of `ReadRecord` and of
the `again` label of `ReadRecordSlow`; `none` when the decoder yields no
record. -/
def popRecord (s : RRState) :
    Option (Option (List Nat × RecordPosition) × RRState) :=
  match decReadRecord s.dec with
  | some (r, d) =>
      some (some (r, ⟨s.chunkBegin, d.index - 1⟩), { s with dec := d })
  | none => none

/-- The reader failed at the chunk-decoder level:
`recoverable_ = kRecoverChunkDecoder; Fail(chunk_decoder_)`. -/
def decFail (s : RRState) : RRState :=
  { s with recoverable := .chunkDecoder, status := .failed .dataLoss decErrMsg }

/-- `RecordReaderBase::ReadRecordSlow`'s loop (`record_reader.cc:282`):
on a failed decoder, fail at the chunk-decoder level and attempt
recovery; otherwise read and decode the next chunk, attempting recovery
on failure; then (label `again`) pop a record from the decoder, looping
when the decoder is exhausted.  The fuel bounds the loop; two steps per
remaining chunk always suffice. -/
def readAux (f : List ChunkMeta) :
    Nat → RRState → Option (List Nat × RecordPosition) × RRState
  | 0, s => (none, s)
  | fuel + 1, s =>
      if s.dec.ok then
        match readChunk f s with
        | (true, s₁) =>
            match popRecord s₁ with
            | some out => out
            | none => readAux f fuel s₁
        | (false, s₁) =>
            match tryRecovery f s₁ with
            | (false, s₂) => (none, s₂)
            | (true, s₂) =>
                match popRecord s₂ with
                | some out => out
                | none => readAux f fuel s₂
      else
        match tryRecovery f (decFail s) with
        | (false, s₂) => (none, s₂)
        | (true, s₂) =>
            match popRecord s₂ with
            | some out => out
            | none => readAux f fuel s₂

/-- The loop fuel used by `readRecord`: two steps per chunk of the file
always suffice, since every continuing iteration advances the chunk
reader past a chunk (possibly after a chunk-decoder recovery step). -/
def readFuel (f : List ChunkMeta) : Nat := 2 * f.length + 2

/-- `RecordReaderBase::ReadRecordSlow` (`record_reader.cc:271`): on an
unhealthy reader attempt recovery and retry from `again`; otherwise run
the read loop. -/
def readRecordSlow (f : List ChunkMeta) (s : RRState) :
    Option (List Nat × RecordPosition) × RRState :=
  if s.status = .healthy then readAux f (readFuel f) s
  else
    match tryRecovery f s with
    | (false, s') => (none, s')
    | (true, s') =>
        match popRecord s' with
        | some out => out
        | none => readAux f (readFuel f) s'

/-- `RecordReaderBase::ReadRecord`: fast path pops the current chunk
decoder and reports the key `(chunk_begin_, index − 1)`; otherwise the
slow path runs. -/
def readRecord (f : List ChunkMeta) (s : RRState) :
    Option (List Nat × RecordPosition) × RRState :=
  match popRecord s with
  | some out => out
  | none => readRecordSlow f s

/-- `RecordReaderBase::Seek(RecordPosition)` (`record_reader.cc:363`). -/
def seekRP (f : List ChunkMeta) (s : RRState) (newPos : RecordPosition) :
    Bool × RRState :=
  if s.status ≠ .healthy then tryRecovery f s
  else if newPos.chunkBegin = s.chunkBegin then
    if newPos.recordIndex = 0 ∨ s.chunkBegin < s.src.pos then
      -- seeking to the beginning of a chunk needs no read; if
      -- `src->pos() > chunk_begin_` the chunk is already read
      (true, { s with dec := decSetIndex s.dec newPos.recordIndex })
    else
      match readChunk f s with
      | (false, s₁) => tryRecovery f s₁
      | (true, s₁) => (true, { s₁ with dec := decSetIndex s₁.dec newPos.recordIndex })
  else
    match srcSeek s.src newPos.chunkBegin with
    | (false, src') =>
        let s₁ : RRState :=
          { s with src := src', chunkBegin := src'.pos, dec := decClear,
                   recoverable := .chunkReader, status := src'.status }
        tryRecovery f s₁
    | (true, src') =>
        if newPos.recordIndex = 0 then
          (true, { s with src := src', chunkBegin := src'.pos, dec := decClear })
        else
          match readChunk f { s with src := src' } with
          | (false, s₁) => tryRecovery f s₁
          | (true, s₁) =>
              (true, { s₁ with dec := decSetIndex s₁.dec newPos.recordIndex })

/-- `RecordReaderBase::Seek(Position)` (`record_reader.cc:396`). -/
def seekBP (f : List ChunkMeta) (s : RRState) (p : Nat) : Bool × RRState :=
  if s.status ≠ .healthy then tryRecovery f s
  else if s.chunkBegin ≤ p ∧ p ≤ s.src.pos then
    -- seeking inside or just after the current chunk that is read
    (true, { s with dec := decSetIndex s.dec (p - s.chunkBegin) })
  else
    match srcSeekToChunkContaining f s.src p with
    | (false, src') =>
        let s₁ : RRState :=
          { s with src := src', chunkBegin := src'.pos, dec := decClear,
                   recoverable := .chunkReader, status := src'.status }
        tryRecovery f s₁
    | (true, src') =>
        if p ≤ src'.pos then
          -- the chunk position may exceed `p` when `p` falls after all
          -- records of the previous chunk; stop at the chunk beginning
          (true, { s with src := src', chunkBegin := src'.pos, dec := decClear })
        else
          match readChunk f { s with src := src' } with
          | (false, s₁) => tryRecovery f s₁
          | (true, s₁) =>
              (true, { s₁ with dec := decSetIndex s₁.dec (p - s₁.chunkBegin) })

/-- Modelled from the spec: the transposed decoder run by
`ParseMetadata` on a `FileMetadata` chunk with `FieldProjection::All`
produces the single serialized metadata message, reporting the record
limits (one limit, equal to the output size). -/
def transposeDecodeMeta (c : ChunkMeta) : Option (List Nat × List Nat) :=
  if c.corrupt then none else some (c.metaContent, [c.metaContent.length])

/-- The data-loss message for a metadata chunk with records. -/
def metaNumRecordsMsg : String :=
  "Invalid file metadata chunk: number of records is not zero"

/-- The failed-precondition message of `ReadMetadata` away from byte 0. -/
def metaPosMsg : String :=
  "ReadMetadata() must be called while the RecordReader is at the beginning of the file"

/-- `RecordReaderBase::ParseMetadata` (`record_reader.cc:237`): a file
metadata chunk whose `num_records` is not zero is a data-loss error;
otherwise the payload is decoded by the transposed decoder with the
all-fields projection. -/
def parseMetadata (c : ChunkMeta) (s : RRState) : Bool × List Nat × RRState :=
  if c.records.length ≠ 0 then
    (false, [], { s with status := .failed .dataLoss metaNumRecordsMsg })
  else match transposeDecodeMeta c with
    | none => (false, [], { s with status := .failed .dataLoss decErrMsg })
    | some (content, _) => (true, content, s)

/-- The chunk-reader failure leg of `ReadSerializedMetadata`:
`recoverable_ = kRecoverChunkReader; Fail(*src); return TryRecovery()`,
with `chunk_begin_` already at `cb`. -/
def rsmSrcFail (f : List ChunkMeta) (s : RRState) (cb : Nat) (src' : SrcState) :
    Bool × List Nat × RRState :=
  let (b, s₂) := tryRecovery f
    { s with chunkBegin := cb, src := src',
             recoverable := .chunkReader, status := src'.status }
  (b, [], s₂)

/-- The metadata-parse failure leg of `ReadSerializedMetadata`:
`recoverable_ = kRecoverChunkDecoder; return TryRecovery()`. -/
def rsmDecFail (f : List ChunkMeta) (sp : RRState) : Bool × List Nat × RRState :=
  let (b, s₂) := tryRecovery f { sp with recoverable := .chunkDecoder }
  (b, [], s₂)

/-- `RecordReaderBase::ReadSerializedMetadata` (`record_reader.cc:184`):
requires the chunk reader at byte 0; reads the signature chunk, peeks
the next chunk header and, when it announces a `FileMetadata` chunk,
reads and parses it; otherwise returns successfully with empty
metadata. -/
def readSerializedMetadata (f : List ChunkMeta) (s : RRState) :
    Bool × List Nat × RRState :=
  if s.status ≠ .healthy then
    let (b, s') := tryRecovery f s
    (b, [], s')
  else if s.src.pos ≠ 0 then
    (false, [], { s with status := .failed .failedPrecondition metaPosMsg })
  else
    match srcReadChunk f s.src with
    | (.fail, src') => rsmSrcFail f s s.src.pos src'
    | (.eof, src') => (false, [], { s with chunkBegin := s.src.pos, src := src' })
    | (.ok _, src') =>
        match srcPullChunkHeader f src' with
        | (.fail, src₂) => rsmSrcFail f s src'.pos src₂
        | (.eof, src₂) => (false, [], { s with chunkBegin := src'.pos, src := src₂ })
        | (.ok hdr, src₂) =>
            if hdr.ctype ≠ .fileMetadata then
              (true, [], { s with chunkBegin := src'.pos, src := src₂ })
            else
              match srcReadChunk f src₂ with
              | (.fail, src₃) => rsmSrcFail f s src'.pos src₃
              | (.eof, src₃) =>
                  (false, [], { s with chunkBegin := src'.pos, src := src₃ })
              | (.ok c, src₃) =>
                  match parseMetadata c
                      { s with chunkBegin := src'.pos, src := src₃ } with
                  | (true, content, s₄) => (true, content, s₄)
                  | (false, _, s₄) => rsmDecFail f s₄

/-- `RecordReaderBase::CheckFileFormat` (`record_reader.cc:155`). -/
def checkFileFormat (f : List ChunkMeta) (s : RRState) : Bool × RRState :=
  if s.status ≠ .healthy then (false, s)
  else if s.dec.index < s.dec.records.length then (true, s)
  else
    match srcCheckFileFormat f s.src with
    | (true, src') => (true, { s with src := src' })
    | (false, src') =>
        let s₁ : RRState := { s with src := src', dec := decClear }
        if src'.status ≠ .healthy then
          (false, { s₁ with recoverable := .chunkReader, status := src'.status })
        else (false, s₁)

/-- The record-reader state invariant used by the position theorems:
`chunk_begin_` never exceeds the chunk-reader position; when the chunk
reader still stands at `chunk_begin_` the chunk has not been read, so
the decoder is pristine; a healthy reader has a healthy decoder; a
failure marked recoverable at the chunk-reader level left the decoder
cleared, hence healthy. -/
def Inv (s : RRState) : Prop :=
  s.chunkBegin ≤ s.src.pos ∧
  (s.chunkBegin = s.src.pos →
    s.dec.records = [] ∧ s.dec.index = 0 ∧ s.dec.ok = true) ∧
  (s.status = .healthy → s.dec.ok = true) ∧
  (s.recoverable = .chunkReader → s.dec.ok = true)

instance (s : RRState) : Decidable (Inv s) := by
  unfold Inv; infer_instance

/-- The invariant of claim C10: a healthy reader has nothing marked
recoverable. -/
def InvRec (s : RRState) : Prop :=
  s.status = .healthy → s.recoverable = .no

instance (s : RRState) : Decidable (InvRec s) := by
  unfold InvRec; infer_instance

/-! Concrete fixtures used by witnesses and counterexamples. -/

/-- A clean file-signature chunk (48 bytes on disk, no records). -/
def sigChunk : ChunkMeta := ⟨.fileSignature, [], 8, false, false, true, []⟩

/-- A clean simple chunk with two one-byte records. -/
def twoRecChunk : ChunkMeta := ⟨.simple, [[97], [98]], 16, false, false, true, []⟩

/-- A clean simple chunk with three one-byte records. -/
def threeRecChunk : ChunkMeta :=
  ⟨.simple, [[97], [98], [99]], 16, false, false, true, []⟩

/-- A clean file-metadata chunk carrying a three-byte serialized
metadata message. -/
def metaChunk : ChunkMeta := ⟨.fileMetadata, [], 24, false, false, true, [10, 2, 77]⟩

/-- A file holding only the signature chunk. -/
def fSig : List ChunkMeta := [sigChunk]

/-- A file with the signature chunk and a two-record chunk at byte 48. -/
def fSig2 : List ChunkMeta := [sigChunk, twoRecChunk]

/-- A file with the signature chunk and a three-record chunk at byte 48. -/
def fSig3 : List ChunkMeta := [sigChunk, threeRecChunk]

/-- A reader state whose current chunk at byte 48 is read and decoded,
with the decoder standing at record 2 of 3. -/
def s6state : RRState :=
  ⟨.healthy, 48, ⟨true, true, [[97], [98], [99]], 2⟩, .no, none, ⟨104, .healthy⟩⟩

/-- A recovery callback that rejects every skipped region. -/
def cbFalse : SkippedRegion → Bool := fun _ => false

/-- A reader failed at the chunk-decoder level with a rejecting
recovery callback installed. -/
def s3state : RRState :=
  ⟨.failed .dataLoss "boom", 48, ⟨false, false, [], 0⟩, .chunkDecoder,
    some cbFalse, ⟨104, .healthy⟩⟩

end Riegeli

namespace Riegeli

/-! Theorems for the claims. -/

/-- C2: when `recover` runs with `recoverable == ChunkDecoder`, the
skipped region spans from `chunk_begin_` plus the decoder index before
recovery up to the current position and carries the snapshotted
message; the decoder's own recovery is attempted, the decoder is
cleared when it fails, and `recover` returns `true`. -/
theorem c2_decoder_recover (f : List ChunkMeta) (s : RRState)
    (h : s.recoverable = .chunkDecoder) :
    (recover f s).1 = true ∧
    (recover f s).2.1 = some ⟨s.chunkBegin + s.dec.index,
        (rrPos (recover f s).2.2).numeric, statusMsg s.status⟩ ∧
    (decRecover s.dec = none → (recover f s).2.2.dec = decClear) ∧
    (∀ d, decRecover s.dec = some d → (recover f s).2.2.dec = d) ∧
    (recover f s).2.2.recoverable = .no ∧
    (recover f s).2.2.status = .healthy := by
  rcases hd : decRecover s.dec with _ | d <;> simp [recover, h, hd]

/-- C2 witness: a concrete reader failed at the chunk-decoder level;
the region runs from `48 + 0` to the chunk-reader position `104` and
carries the failure message. -/
theorem c2_decoder_recover_witness :
    (recover fSig2
      ⟨.failed .dataLoss "boom", 48, ⟨false, false, [], 0⟩, .chunkDecoder,
        none, ⟨104, .healthy⟩⟩).1 = true ∧
    (recover fSig2
      ⟨.failed .dataLoss "boom", 48, ⟨false, false, [], 0⟩, .chunkDecoder,
        none, ⟨104, .healthy⟩⟩).2.1 = some ⟨48, 104, "boom"⟩ := by
  refine ⟨(c2_decoder_recover fSig2
    ⟨.failed .dataLoss "boom", 48, ⟨false, false, [], 0⟩, .chunkDecoder,
      none, ⟨104, .healthy⟩⟩ rfl).1, ?_⟩
  decide

/-- C4: `read_metadata` on a healthy reader away from byte 0 fails with
a `FailedPrecondition` error; at byte 0, when the chunk after the file
signature is not a `FileMetadata` chunk, it returns `true` with empty
(default) metadata. -/
theorem c4_read_metadata (f : List ChunkMeta) :
    (∀ s : RRState, s.status = .healthy → s.src.pos ≠ 0 →
      readSerializedMetadata f s =
        (false, [], { s with status := .failed .failedPrecondition metaPosMsg })) ∧
    (∀ s : RRState, ∀ c₁ c₂ : ChunkMeta,
      s.status = .healthy → s.src.pos = 0 → s.src.status = .healthy →
      chunkStartingAt f 0 0 = some c₁ → c₁.hdrCorrupt = false →
      chunkStartingAt f 0 (chunkSize c₁) = some c₂ → c₂.hdrCorrupt = false →
      c₂.ctype ≠ .fileMetadata →
      (readSerializedMetadata f s).1 = true ∧
      (readSerializedMetadata f s).2.1 = []) := by
  constructor
  · intro s hh hp
    simp [readSerializedMetadata, hh, hp]
  · intro s c₁ c₂ hh hp hsh h₁ h₁c h₂ h₂c h₂t
    simp [readSerializedMetadata, srcReadChunk, srcPullChunkHeader, hh, hp, hsh,
      h₁, h₁c, h₂, h₂c, h₂t]

/-- C4 witness: concrete instances of both parts, on the two-chunk file
whose second chunk is a simple chunk. -/
theorem c4_read_metadata_witness :
    (readSerializedMetadata fSig2 (initRR ⟨5, .healthy⟩)).1 = false ∧
    (readSerializedMetadata fSig2 (initRR ⟨0, .healthy⟩)).1 = true ∧
    (readSerializedMetadata fSig2 (initRR ⟨0, .healthy⟩)).2.1 = [] := by
  refine ⟨?_, ?_, ?_⟩
  · rw [(c4_read_metadata fSig2).1 (initRR ⟨5, .healthy⟩) rfl (by decide)]
  · exact ((c4_read_metadata fSig2).2 (initRR ⟨0, .healthy⟩) sigChunk twoRecChunk
      rfl rfl rfl (by decide) (by decide) (by decide) (by decide) (by decide)).1
  · exact ((c4_read_metadata fSig2).2 (initRR ⟨0, .healthy⟩) sigChunk twoRecChunk
      rfl rfl rfl (by decide) (by decide) (by decide) (by decide) (by decide)).2

/-- C5: parsing a `FileMetadata` chunk rejects a nonzero `num_records`
as data loss; with zero records, the transposed decoder under the
all-fields projection yields exactly one record slice whose limit is the
serialized metadata size. -/
theorem c5_parse_metadata (c : ChunkMeta) (s : RRState) :
    (c.records.length ≠ 0 →
      parseMetadata c s =
        (false, [], { s with status := .failed .dataLoss metaNumRecordsMsg })) ∧
    (c.records.length = 0 → c.corrupt = false →
      ∃ content limits, transposeDecodeMeta c = some (content, limits) ∧
        limits.length = 1 ∧ limits = [content.length] ∧
        parseMetadata c s = (true, content, s)) := by
  constructor
  · intro h
    simp [parseMetadata, h]
  · intro h hc
    exact ⟨c.metaContent, [c.metaContent.length], by simp [transposeDecodeMeta, hc],
      rfl, rfl, by simp [parseMetadata, transposeDecodeMeta, h, hc]⟩

/-- C5 witness: the metadata chunk fixture, and the same chunk with a
record forced in. -/
theorem c5_parse_metadata_witness :
    parseMetadata { metaChunk with records := [[1]] } (initRR ⟨0, .healthy⟩) =
      (false, [], { initRR ⟨0, .healthy⟩ with
        status := .failed .dataLoss metaNumRecordsMsg }) ∧
    parseMetadata metaChunk (initRR ⟨0, .healthy⟩) =
      (true, [10, 2, 77], initRR ⟨0, .healthy⟩) := by
  constructor
  · exact (c5_parse_metadata { metaChunk with records := [[1]] }
      (initRR ⟨0, .healthy⟩)).1 (by decide)
  · obtain ⟨content, limits, h1, -, -, h4⟩ :=
      (c5_parse_metadata metaChunk (initRR ⟨0, .healthy⟩)).2 rfl rfl
    have hc : content = [10, 2, 77] := by
      have h5 : transposeDecodeMeta metaChunk = some ([10, 2, 77], [3]) := rfl
      rw [h5] at h1
      exact (Prod.mk.injEq _ _ _ _ ▸ Option.some.inj h1.symm).1
    rw [← hc]; exact h4

/-- C6 counterexample: with the current chunk already read and decoded,
seeking to `(chunk_begin_, 0)` does not clear the chunk decoder (the
code calls `SetIndex(0)`, keeping the decoded records), refuting the
claim's "clears the chunk decoder". -/
theorem c6_seek_cex :
    s6state.chunkBegin = 48 ∧ s6state.status = .healthy ∧
    (seekRP fSig3 s6state ⟨48, 0⟩).1 = true ∧
    ¬ ((seekRP fSig3 s6state ⟨48, 0⟩).2.dec = decClear) := by
  refine ⟨rfl, rfl, ?_, ?_⟩ <;> decide

/-- C6 as amended: seeking to `(chunk_begin_, 0)` on a healthy reader
sets the decoder index to 0 without reading the chunk (the chunk reader
does not move, so a chunk past end-of-file is not touched); the logical
position is then the chunk start (when the decoder holds records, or
when the chunk has not been read). -/
theorem c6_same_chunk_seek (f : List ChunkMeta) (s : RRState) (B : Nat)
    (hh : s.status = .healthy) (hB : B = s.chunkBegin) :
    seekRP f s ⟨B, 0⟩ = (true, { s with dec := decSetIndex s.dec 0 }) ∧
    ((s.dec.records ≠ [] ∨ s.src.pos = s.chunkBegin) →
      rrPos (seekRP f s ⟨B, 0⟩).2 = ⟨s.chunkBegin, 0⟩) := by
  have h1 : seekRP f s ⟨B, 0⟩ = (true, { s with dec := decSetIndex s.dec 0 }) := by
    simp [seekRP, hh, hB]
  refine ⟨h1, ?_⟩
  intro hcase
  rw [h1]
  rcases hcase with hne | hpos
  · have : 0 < s.dec.records.length := List.length_pos.mpr hne
    simp [rrPos, decSetIndex, this]
  · rcases hlen : s.dec.records.length with _ | n
    · simp [rrPos, decSetIndex, hlen, hpos]
    · simp [rrPos, decSetIndex, hlen, hpos, Nat.succ_pos]

/-- C6 witness: the amended seek at the already-read chunk fixture. -/
theorem c6_same_chunk_seek_witness :
    seekRP fSig3 s6state ⟨48, 0⟩ =
      (true, { s6state with dec := decSetIndex s6state.dec 0 }) ∧
    rrPos (seekRP fSig3 s6state ⟨48, 0⟩).2 = ⟨48, 0⟩ := by
  obtain ⟨h1, h2⟩ := c6_same_chunk_seek fSig3 s6state 48 rfl rfl
  exact ⟨h1, by simpa using h2 (Or.inl (by decide))⟩

/-- C7 counterexample: seeking to byte 48 of the two-chunk file from a
fresh reader, the chunk reached by `SeekToChunkContaining` begins
exactly at 48 — not strictly after it — yet the code stops at the chunk
start without reading or decoding it, refuting the claim's "otherwise
it reads and decodes the chunk". -/
theorem c7_byte_seek_cex :
    containingPos fSig2 0 48 = 48 ∧
    (seekBP fSig2 (initRR ⟨0, .healthy⟩) 48).1 = true ∧
    (seekBP fSig2 (initRR ⟨0, .healthy⟩) 48).2.src.pos = 48 ∧
    ¬ ((seekBP fSig2 (initRR ⟨0, .healthy⟩) 48).2.src.pos =
          48 + chunkSize twoRecChunk ∧
        (seekBP fSig2 (initRR ⟨0, .healthy⟩) 48).2.dec.records =
          twoRecChunk.records) := by
  refine ⟨?_, ?_, ?_, ?_⟩ <;> decide

/-- C7 as amended: for a byte seek to `p` outside the already-read
current chunk, after the chunk reader seeks to the chunk containing
`p`: when the reached chunk begins at or after `p` the reader stops at
that chunk start with a cleared decoder and no chunk read; when it
begins strictly before `p` (and is intact) the chunk is read and
decoded, and the decoder index becomes `min(p − chunk_begin,
num_records)`. -/
theorem c7_byte_seek (f : List ChunkMeta) (s : RRState) (p : Nat)
    (hh : s.status = .healthy)
    (hout : p < s.chunkBegin ∨ s.src.pos < p) :
    (p ≤ containingPos f 0 p →
      seekBP f s p = (true, { s with
        src := { s.src with pos := containingPos f 0 p },
        chunkBegin := containingPos f 0 p, dec := decClear })) ∧
    (∀ c : ChunkMeta, containingPos f 0 p < p →
      chunkStartingAt f 0 (containingPos f 0 p) = some c →
      c.hdrCorrupt = false → c.corrupt = false → s.src.status = .healthy →
      seekBP f s p = (true, { s with
        src := { s.src with pos := containingPos f 0 p + chunkSize c },
        chunkBegin := containingPos f 0 p,
        dec := decSetIndex (decDecode c) (p - containingPos f 0 p) })) := by
  have hcond : ¬ (s.chunkBegin ≤ p ∧ p ≤ s.src.pos) := by omega
  constructor
  · intro hle
    simp [seekBP, hh, hcond, srcSeekToChunkContaining, hle]
  · intro c hlt hc hcorr hdec hsrc
    have hnle : ¬ p ≤ containingPos f 0 p := by omega
    simp [seekBP, hh, hcond, srcSeekToChunkContaining, hnle, readChunk,
      srcReadChunk, hsrc, hc, hcorr, decDecode, hdec]

/-- C7 witness: the stop case at byte 48 and the read case at byte 49
on the two-chunk file. -/
theorem c7_byte_seek_witness :
    seekBP fSig2 (initRR ⟨0, .healthy⟩) 48 =
      (true, { initRR ⟨0, .healthy⟩ with
        src := ⟨48, .healthy⟩, chunkBegin := 48, dec := decClear }) ∧
    (seekBP fSig2 (initRR ⟨0, .healthy⟩) 49).1 = true ∧
    (seekBP fSig2 (initRR ⟨0, .healthy⟩) 49).2.dec.index = 1 ∧
    (seekBP fSig2 (initRR ⟨0, .healthy⟩) 49).2.src.pos = 104 := by
  refine ⟨?_, ?_, ?_, ?_⟩
  · exact (c7_byte_seek fSig2 (initRR ⟨0, .healthy⟩) 48 rfl
      (Or.inr (by decide))).1 (by decide)
  all_goals
    rw [(c7_byte_seek fSig2 (initRR ⟨0, .healthy⟩) 49 rfl
      (Or.inr (by decide))).2 twoRecChunk (by decide) (by decide) rfl rfl rfl]
  all_goals decide

/-- C3 (spec-modelled `TryRecovery`): after the recovery dispatch, an
installed recovery callback is invoked on the skipped region, and its
return value decides whether the reader continues healthy (`true`) or
re-fails with the original error message (`false`). -/
theorem c3_recovery_callback (f : List ChunkMeta) (s : RRState)
    (cb : SkippedRegion → Bool) (hcb : s.recovery = some cb)
    (r : SkippedRegion) (s' : RRState)
    (hr : recover f s = (true, some r, s')) :
    (cb r = true → tryRecovery f s = (true, s')) ∧
    (cb r = false → tryRecovery f s =
      (false, { s' with status := .failed .dataLoss (statusMsg s.status) })) := by
  constructor <;> intro hcbr <;> simp [tryRecovery, hcb, hr, hcbr]

/-- C3 witness: a rejecting callback re-fails the reader with the
original message after a chunk-decoder recovery. -/
theorem c3_recovery_callback_witness :
    tryRecovery fSig2 s3state =
      (false, ⟨.failed .dataLoss "boom", 48, decClear, .no, some cbFalse,
        ⟨104, .healthy⟩⟩) := by
  have h := (c3_recovery_callback fSig2 s3state cbFalse rfl ⟨48, 104, "boom"⟩
    ⟨.healthy, 48, decClear, .no, some cbFalse, ⟨104, .healthy⟩⟩ rfl).2 rfl
  exact h

/-! Preservation of the healthy-implies-nothing-recoverable invariant. -/

theorem invRec_of_fields {s t : RRState} (h : InvRec s)
    (hst : t.status = s.status) (hrec : t.recoverable = s.recoverable) :
    InvRec t := by
  intro hh
  rw [hrec]
  exact h (hst ▸ hh)

theorem invRec_failed {t : RRState} (h : t.status ≠ .healthy) : InvRec t :=
  fun hh => absurd hh h

theorem srcReadChunk_fail_status {f : List ChunkMeta} {st st' : SrcState}
    (h : srcReadChunk f st = (.fail, st')) : st'.status ≠ .healthy := by
  unfold srcReadChunk at h
  split at h
  · cases h; assumption
  · split at h
    · split at h
      · cases h; simp
      · cases h
    · split at h
      · cases h
      · cases h; simp

theorem srcPullChunkHeader_fail_status {f : List ChunkMeta} {st st' : SrcState}
    (h : srcPullChunkHeader f st = (.fail, st')) : st'.status ≠ .healthy := by
  unfold srcPullChunkHeader at h
  split at h
  · cases h; assumption
  · split at h
    · split at h
      · cases h; simp
      · cases h
    · split at h
      · cases h
      · cases h; simp

theorem parseMetadata_false_status {c : ChunkMeta} {s s' : RRState} {l : List Nat}
    (h : parseMetadata c s = (false, l, s')) : s'.status ≠ .healthy := by
  unfold parseMetadata at h
  split at h
  · cases h; simp
  · split at h
    · cases h; simp
    · cases h

theorem invRec_recover (f : List ChunkMeta) (s : RRState) (h : InvRec s) :
    InvRec (recover f s).2.2 ∧
    (s.recoverable ≠ .no → (recover f s).2.2.recoverable = .no) := by
  rcases hr : s.recoverable with _ | _ | _
  · constructor
    · have : (recover f s).2.2 = s := by simp [recover, hr]
      rw [this]; exact h
    · exact fun hc => absurd rfl hc
  · exact ⟨fun _ => by simp [recover, hr], fun _ => by simp [recover, hr]⟩
  · exact ⟨fun _ => by simp [recover, hr], fun _ => by simp [recover, hr]⟩

theorem invRec_tryRecovery (f : List ChunkMeta) (s : RRState) (h : InvRec s) :
    InvRec (tryRecovery f s).2 := by
  unfold tryRecovery
  rcases hcb : s.recovery with _ | cb
  · simpa using h
  · rcases hrec : recover f s with ⟨b, ropt, s'⟩
    have h1 : InvRec s' := by
      have := (invRec_recover f s h).1
      rw [hrec] at this
      exact this
    rcases b
    · simpa [hrec] using h1
    · rcases ropt with _ | region
      · simpa [hrec] using h1
      · by_cases hcr : cb region = true
        · simpa [hrec, hcr] using h1
        · simp only [hrec, Bool.not_eq_true] at hcr ⊢
          simp [hcr]
          exact invRec_failed (by simp)

theorem invRec_readChunk (f : List ChunkMeta) (s : RRState) (h : InvRec s) :
    InvRec (readChunk f s).2 := by
  unfold readChunk
  rcases hr : srcReadChunk f s.src with ⟨res, src'⟩
  rcases res with c | _ | _
  · by_cases hd : (decDecode c).ok
    · simp only [hr, hd]
      exact invRec_of_fields h rfl rfl
    · simp only [hr, Bool.not_eq_true] at hd ⊢
      simp [hd]
      exact invRec_failed (by simp)
  · simp only [hr]
    exact invRec_of_fields h rfl rfl
  · simp only [hr]
    exact invRec_failed (srcReadChunk_fail_status hr)

theorem invRec_popRecord {s : RRState} {out : Option (List Nat × RecordPosition) × RRState}
    (hp : popRecord s = some out) (h : InvRec s) : InvRec out.2 := by
  unfold popRecord at hp
  split at hp
  · cases hp
    exact invRec_of_fields h rfl rfl
  · cases hp

theorem invRec_again (f : List ChunkMeta) (fuel : Nat) (s₂ : RRState)
    (h2 : InvRec s₂) (ih : ∀ t, InvRec t → InvRec (readAux f fuel t).2) :
    InvRec ((match popRecord s₂ with
      | some out => out
      | none => readAux f fuel s₂).2) := by
  rcases hp : popRecord s₂ with _ | out
  · simpa [hp] using ih s₂ h2
  · simpa [hp] using invRec_popRecord hp h2

theorem invRec_readAux (f : List ChunkMeta) :
    ∀ fuel s, InvRec s → InvRec (readAux f fuel s).2
  | 0, _, h => h
  | fuel + 1, s, h => by
      unfold readAux
      by_cases hok : s.dec.ok = true
      · rw [if_pos hok]
        rcases hrc : readChunk f s with ⟨b, s₁⟩
        have h1 : InvRec s₁ := by
          have := invRec_readChunk f s h
          rw [hrc] at this
          exact this
        rcases b
        · simp only [hrc]
          rcases htr : tryRecovery f s₁ with ⟨b₂, s₂⟩
          have h2 : InvRec s₂ := by
            have := invRec_tryRecovery f s₁ h1
            rw [htr] at this
            exact this
          rcases b₂
          · simpa using h2
          · exact invRec_again f fuel s₂ h2 (fun t ht => invRec_readAux f fuel t ht)
        · simp only [hrc]
          exact invRec_again f fuel s₁ h1 (fun t ht => invRec_readAux f fuel t ht)
      · rw [if_neg hok]
        have h1 : InvRec (decFail s) := invRec_failed (by simp [decFail])
        rcases htr : tryRecovery f (decFail s) with ⟨b₂, s₂⟩
        have h2 : InvRec s₂ := by
          have := invRec_tryRecovery f _ h1
          rw [htr] at this
          exact this
        rcases b₂
        · simpa using h2
        · exact invRec_again f fuel s₂ h2 (fun t ht => invRec_readAux f fuel t ht)

theorem invRec_readRecord (f : List ChunkMeta) (s : RRState) (h : InvRec s) :
    InvRec (readRecord f s).2 := by
  unfold readRecord readRecordSlow
  rcases hp : popRecord s with _ | out
  · simp only [hp]
    by_cases hh : s.status = .healthy
    · rw [if_pos hh]
      exact invRec_readAux f _ s h
    · rw [if_neg hh]
      rcases htr : tryRecovery f s with ⟨b₂, s₂⟩
      have h2 : InvRec s₂ := by
        have := invRec_tryRecovery f s h
        rw [htr] at this
        exact this
      rcases b₂
      · simpa using h2
      · exact invRec_again f (readFuel f) s₂ h2
          (fun t ht => invRec_readAux f (readFuel f) t ht)
  · simpa [hp] using invRec_popRecord hp h

theorem invRec_seekRP (f : List ChunkMeta) (s : RRState) (np : RecordPosition)
    (h : InvRec s) : InvRec (seekRP f s np).2 := by
  unfold seekRP
  by_cases hh : s.status = .healthy
  · rw [if_neg (not_not_intro hh)]
    by_cases hB : np.chunkBegin = s.chunkBegin
    · rw [if_pos hB]
      by_cases hsk : np.recordIndex = 0 ∨ s.chunkBegin < s.src.pos
      · rw [if_pos hsk]
        exact invRec_of_fields h rfl rfl
      · rw [if_neg hsk]
        rcases hrc : readChunk f s with ⟨b, s₁⟩
        have h1 : InvRec s₁ := by
          have := invRec_readChunk f s h
          rw [hrc] at this
          exact this
        rcases b
        · simp only [hrc]
          exact invRec_tryRecovery f s₁ h1
        · simp only [hrc]
          exact invRec_of_fields h1 rfl rfl
    · rw [if_neg hB]
      simp only [srcSeek]
      by_cases hi : np.recordIndex = 0
      · rw [if_pos hi]
        exact invRec_of_fields h rfl rfl
      · rw [if_neg hi]
        rcases hrc : readChunk f { s with src := { s.src with pos := np.chunkBegin } }
          with ⟨b, s₁⟩
        have h1 : InvRec s₁ := by
          have := invRec_readChunk f { s with src := { s.src with pos := np.chunkBegin } }
            (invRec_of_fields h rfl rfl)
          rw [hrc] at this
          exact this
        rcases b
        · simp only [hrc]
          exact invRec_tryRecovery f s₁ h1
        · simp only [hrc]
          exact invRec_of_fields h1 rfl rfl
  · rw [if_pos hh]
    exact invRec_tryRecovery f s h

theorem invRec_seekBP (f : List ChunkMeta) (s : RRState) (p : Nat)
    (h : InvRec s) : InvRec (seekBP f s p).2 := by
  unfold seekBP
  by_cases hh : s.status = .healthy
  · rw [if_neg (not_not_intro hh)]
    by_cases hin : s.chunkBegin ≤ p ∧ p ≤ s.src.pos
    · rw [if_pos hin]
      exact invRec_of_fields h rfl rfl
    · rw [if_neg hin]
      simp only [srcSeekToChunkContaining]
      by_cases hle : p ≤ containingPos f 0 p
      · rw [if_pos hle]
        exact invRec_of_fields h rfl rfl
      · rw [if_neg hle]
        rcases hrc : readChunk f
            { s with src := { s.src with pos := containingPos f 0 p } } with ⟨b, s₁⟩
        have h1 : InvRec s₁ := by
          have := invRec_readChunk f
            { s with src := { s.src with pos := containingPos f 0 p } }
            (invRec_of_fields h rfl rfl)
          rw [hrc] at this
          exact this
        rcases b
        · simp only [hrc]
          exact invRec_tryRecovery f s₁ h1
        · simp only [hrc]
          exact invRec_of_fields h1 rfl rfl
  · rw [if_pos hh]
    exact invRec_tryRecovery f s h

theorem parseMetadata_true_state {c : ChunkMeta} {s s' : RRState} {l : List Nat}
    (h : parseMetadata c s = (true, l, s')) : s' = s := by
  unfold parseMetadata at h
  split at h
  · cases h
  · split at h
    · cases h
    · cases h; rfl

theorem invRec_rsmSrcFail (f : List ChunkMeta) (s : RRState) (cb : Nat)
    (src' : SrcState) (hsrc : src'.status ≠ .healthy) :
    InvRec (rsmSrcFail f s cb src').2.2 := by
  unfold rsmSrcFail
  rcases htr : tryRecovery f
      { s with chunkBegin := cb, src := src',
               recoverable := .chunkReader, status := src'.status } with ⟨b, s₂⟩
  simp only [htr]
  have := invRec_tryRecovery f
    { s with chunkBegin := cb, src := src',
             recoverable := .chunkReader, status := src'.status }
    (invRec_failed hsrc)
  rw [htr] at this
  exact this

theorem invRec_rsmDecFail (f : List ChunkMeta) (sp : RRState)
    (hsp : sp.status ≠ .healthy) : InvRec (rsmDecFail f sp).2.2 := by
  unfold rsmDecFail
  rcases htr : tryRecovery f { sp with recoverable := .chunkDecoder } with ⟨b, s₂⟩
  simp only [htr]
  have := invRec_tryRecovery f { sp with recoverable := .chunkDecoder }
    (invRec_failed hsp)
  rw [htr] at this
  exact this

theorem invRec_readSerializedMetadata (f : List ChunkMeta) (s : RRState)
    (h : InvRec s) : InvRec (readSerializedMetadata f s).2.2 := by
  unfold readSerializedMetadata
  by_cases hh : s.status = .healthy
  · rw [if_neg (not_not_intro hh)]
    by_cases hp : s.src.pos ≠ 0
    · rw [if_pos hp]
      exact invRec_failed (by simp)
    · rw [if_neg hp]
      rcases hr₁ : srcReadChunk f s.src with ⟨res₁, src₁⟩
      rcases res₁ with c₁ | _ | _ <;> simp only [hr₁]
      · rcases hr₂ : srcPullChunkHeader f src₁ with ⟨res₂, src₂⟩
        rcases res₂ with c₂ | _ | _ <;> simp only [hr₂]
        · by_cases hmt : c₂.ctype ≠ ChunkType.fileMetadata
          · rw [if_pos hmt]
            exact invRec_of_fields h rfl rfl
          · rw [if_neg hmt]
            rcases hr₃ : srcReadChunk f src₂ with ⟨res₃, src₃⟩
            rcases res₃ with c₃ | _ | _ <;> simp only [hr₃]
            · rcases hpm : parseMetadata c₃
                  { s with chunkBegin := src₁.pos, src := src₃ } with ⟨bp, lp, sp⟩
              rcases bp <;> simp only [hpm]
              · exact invRec_rsmDecFail f sp (parseMetadata_false_status hpm)
              · rw [parseMetadata_true_state hpm]
                exact invRec_of_fields h rfl rfl
            · exact invRec_of_fields h rfl rfl
            · exact invRec_rsmSrcFail f s src₁.pos src₃ (srcReadChunk_fail_status hr₃)
        · exact invRec_of_fields h rfl rfl
        · exact invRec_rsmSrcFail f s src₁.pos src₂ (srcPullChunkHeader_fail_status hr₂)
      · exact invRec_of_fields h rfl rfl
      · exact invRec_rsmSrcFail f s s.src.pos src₁ (srcReadChunk_fail_status hr₁)
  · rw [if_pos hh]
    rcases htr : tryRecovery f s with ⟨b₂, s₂⟩
    simp only [htr]
    have := invRec_tryRecovery f s h
    rw [htr] at this
    exact this

theorem invRec_checkFileFormat (f : List ChunkMeta) (s : RRState)
    (h : InvRec s) : InvRec (checkFileFormat f s).2 := by
  unfold checkFileFormat
  by_cases hh : s.status = .healthy
  · rw [if_neg (not_not_intro hh)]
    by_cases hix : s.dec.index < s.dec.records.length
    · rw [if_pos hix]
      exact h
    · rw [if_neg hix]
      rcases hcf : srcCheckFileFormat f s.src with ⟨b, src'⟩
      rcases b <;> simp only [hcf]
      · by_cases hsh : src'.status ≠ .healthy
        · rw [if_pos hsh]
          exact invRec_failed hsh
        · rw [if_neg hsh]
          exact invRec_of_fields h rfl rfl
      · exact invRec_of_fields h rfl rfl
  · rw [if_pos hh]
    exact h

/-- C10: every modelled record-reader operation preserves the invariant
that a healthy reader has `recoverable == No` (equivalently, a
recoverable tag other than `No` only accompanies a failed reader), and
`Recover` always leaves the tag reset to `No`. -/
theorem c10_recoverable_invariant (f : List ChunkMeta) (s : RRState)
    (np : RecordPosition) (p : Nat) (h : InvRec s) :
    InvRec (readRecord f s).2 ∧
    InvRec (seekRP f s np).2 ∧
    InvRec (seekBP f s p).2 ∧
    InvRec (recover f s).2.2 ∧
    (s.recoverable ≠ .no → (recover f s).2.2.recoverable = .no) ∧
    InvRec (tryRecovery f s).2 ∧
    InvRec (readSerializedMetadata f s).2.2 ∧
    InvRec (checkFileFormat f s).2 :=
  ⟨invRec_readRecord f s h, invRec_seekRP f s np h, invRec_seekBP f s p h,
    (invRec_recover f s h).1, (invRec_recover f s h).2,
    invRec_tryRecovery f s h, invRec_readSerializedMetadata f s h,
    invRec_checkFileFormat f s h⟩

/-- C10 witness: the invariant is preserved for a concrete failed
reader with a recoverable chunk-decoder tag. -/
theorem c10_recoverable_invariant_witness :
    InvRec (readRecord fSig2 s6state).2 ∧
    InvRec (recover fSig2 s6state).2.2 := by
  have h := c10_recoverable_invariant fSig2 s6state ⟨0, 0⟩ 0 (by decide)
  exact ⟨h.1, h.2.2.2.1⟩

/-! Classification of the states left behind by a failed read. -/

theorem popRecord_some {s : RRState}
    {out : Option (List Nat × RecordPosition) × RRState}
    (h : popRecord s = some out) :
    out.1.isSome ∧ out.2.status = s.status ∧
    out.2.recoverable = s.recoverable ∧ out.2.recovery = s.recovery := by
  unfold popRecord at h
  split at h
  · cases h; exact ⟨rfl, rfl, rfl, rfl⟩
  · cases h

theorem readChunk_true_fields {f : List ChunkMeta} {s s₁ : RRState}
    (h : readChunk f s = (true, s₁)) :
    s₁.status = s.status ∧ s₁.recoverable = s.recoverable ∧
    s₁.recovery = s.recovery := by
  unfold readChunk at h
  split at h
  · cases h
  · cases h
  · split at h
    · cases h; exact ⟨rfl, rfl, rfl⟩
    · cases h

theorem readChunk_false_fields {f : List ChunkMeta} {s s₁ : RRState}
    (h : readChunk f s = (false, s₁)) :
    s₁.recovery = s.recovery ∧
    ((s₁.status = s.status ∧ s₁.recoverable = s.recoverable) ∨
      (s₁.status ≠ .healthy ∧ s₁.recoverable ≠ .no)) := by
  unfold readChunk at h
  split at h
  · cases h
    exact ⟨rfl, Or.inl ⟨rfl, rfl⟩⟩
  next src' heq =>
    cases h
    exact ⟨rfl, Or.inr ⟨srcReadChunk_fail_status heq, by simp⟩⟩
  · split at h
    · cases h
    · cases h
      exact ⟨rfl, Or.inr ⟨by simp, by simp⟩⟩

theorem c1_aux (f : List ChunkMeta) :
    ∀ fuel s, s.status = .healthy → s.recoverable = .no → s.recovery = none →
    ((readAux f fuel s).2.status = .healthy ∧
      (readAux f fuel s).2.recoverable = .no) ∨
    ((readAux f fuel s).2.status ≠ .healthy ∧
      (readAux f fuel s).2.recoverable ≠ .no)
  | 0, s, hh, hr, _ => Or.inl ⟨hh, hr⟩
  | fuel + 1, s, hh, hr, hcb => by
      unfold readAux
      by_cases hok : s.dec.ok = true
      · rw [if_pos hok]
        rcases hrc : readChunk f s with ⟨b, s₁⟩
        rcases b
        · simp only [hrc]
          obtain ⟨hcb₁, hcl⟩ := readChunk_false_fields hrc
          have htr : tryRecovery f s₁ = (false, s₁) := by
            unfold tryRecovery
            rw [hcb₁, hcb]
          simp only [htr]
          rcases hcl with ⟨h₁, h₂⟩ | ⟨h₁, h₂⟩
          · exact Or.inl ⟨h₁.trans hh, h₂.trans hr⟩
          · exact Or.inr ⟨h₁, h₂⟩
        · simp only [hrc]
          obtain ⟨h₁, h₂, h₃⟩ := readChunk_true_fields hrc
          rcases hp : popRecord s₁ with _ | out <;> simp only [hp]
          · exact c1_aux f fuel s₁ (h₁.trans hh) (h₂.trans hr) (h₃.trans hcb)
          · obtain ⟨-, ho₁, ho₂, -⟩ := popRecord_some hp
            exact Or.inl ⟨ho₁.trans (h₁.trans hh), ho₂.trans (h₂.trans hr)⟩
      · rw [if_neg hok]
        have htr : tryRecovery f (decFail s) = (false, decFail s) := by
          unfold tryRecovery
          have : (decFail s).recovery = none := by simpa [decFail] using hcb
          rw [this]
        simp only [htr]
        exact Or.inr ⟨by simp [decFail], by simp [decFail]⟩

/-- C1 counterexample: a read operation (`read_metadata` called on a
healthy reader positioned away from byte 0) returns `false` leaving the
reader failed while `recoverable == No`, refuting "no false return
leaves a failed reader whose recoverable tag is No". -/
theorem c1_failure_semantics_cex :
    (readSerializedMetadata fSig2 (initRR ⟨5, .healthy⟩)).1 = false ∧
    (readSerializedMetadata fSig2 (initRR ⟨5, .healthy⟩)).2.2.status ≠ .healthy ∧
    (readSerializedMetadata fSig2 (initRR ⟨5, .healthy⟩)).2.2.recoverable = .no := by
  refine ⟨?_, ?_, ?_⟩ <;> decide

/-- C1 as amended: every `read_record` call started on a healthy reader
with `recoverable == No` and no recovery callback installed that returns
`false` leaves the reader either failed with a recoverable tag other
than `No` (recover-then-retry is possible), or healthy with
`recoverable == No` (clean end of file). -/
theorem c1_failure_semantics (f : List ChunkMeta) (s : RRState)
    (hh : s.status = .healthy) (hr : s.recoverable = .no)
    (hcb : s.recovery = none) (hfalse : (readRecord f s).1 = none) :
    ((readRecord f s).2.status = .healthy ∧
      (readRecord f s).2.recoverable = .no) ∨
    ((readRecord f s).2.status ≠ .healthy ∧
      (readRecord f s).2.recoverable ≠ .no) := by
  unfold readRecord at hfalse ⊢
  rcases hp : popRecord s with _ | out
  · simp only [hp] at hfalse ⊢
    unfold readRecordSlow at hfalse ⊢
    rw [if_pos hh] at hfalse ⊢
    exact c1_aux f (readFuel f) s hh hr hcb
  · exfalso
    obtain ⟨ho, -⟩ := popRecord_some hp
    simp only [hp] at hfalse
    rw [hfalse] at ho
    cases ho

/-- C1 witness: a clean end-of-file read on the signature-only file
lands in the healthy branch of the classification. -/
theorem c1_failure_semantics_witness :
    ((readRecord fSig (initRR ⟨0, .healthy⟩)).2.status = .healthy ∧
      (readRecord fSig (initRR ⟨0, .healthy⟩)).2.recoverable = .no) ∨
    ((readRecord fSig (initRR ⟨0, .healthy⟩)).2.status ≠ .healthy ∧
      (readRecord fSig (initRR ⟨0, .healthy⟩)).2.recoverable ≠ .no) :=
  c1_failure_semantics fSig (initRR ⟨0, .healthy⟩) rfl rfl rfl (by decide)

/-! The idempotent-seek facts. -/

theorem decSetIndex_self {d : ChunkDecoder} (h : d.index ≤ d.records.length) :
    decSetIndex d d.index = d := by
  unfold decSetIndex
  rw [Nat.min_eq_left h]

theorem decReadRecord_of_exhausted {d : ChunkDecoder}
    (h : d.records.length ≤ d.index) : decReadRecord d = none := by
  simp [decReadRecord, List.getElem?_eq_none h]

theorem readChunk_cbdec (f : List ChunkMeta) (st : Status) (cb₁ : Nat)
    (d₁ : ChunkDecoder) (cb₂ : Nat) (d₂ : ChunkDecoder) (rv : Recoverable)
    (ry : Option (SkippedRegion → Bool)) (sr : SrcState) :
    readChunk f ⟨st, cb₁, d₁, rv, ry, sr⟩ =
    readChunk f ⟨st, cb₂, d₂, rv, ry, sr⟩ := rfl

theorem readAux_cbdec (f : List ChunkMeta) (fuel : Nat) (st : Status)
    (cb₁ : Nat) (d₁ : ChunkDecoder) (cb₂ : Nat) (d₂ : ChunkDecoder)
    (rv : Recoverable) (ry : Option (SkippedRegion → Bool)) (sr : SrcState)
    (h₁ : d₁.ok = true) (h₂ : d₂.ok = true) :
    (readAux f fuel ⟨st, cb₁, d₁, rv, ry, sr⟩).1 =
    (readAux f fuel ⟨st, cb₂, d₂, rv, ry, sr⟩).1 := by
  cases fuel with
  | zero => rfl
  | succ fuel =>
      unfold readAux
      dsimp only
      rw [if_pos h₁, if_pos h₂, readChunk_cbdec f st cb₁ d₁ cb₂ d₂ rv ry sr]

/-- C9 counterexample: position with a record seek to the end of the
three-record chunk (no read afterwards), then seek to the reader's own
`pos()`: the seek succeeds but changes `chunk_begin_`, refuting the
claim's "the reader state (chunk_begin and decoder index) is
unchanged". -/
theorem c9_seek_pos_cex :
    (seekRP fSig3 (initRR ⟨0, .healthy⟩) ⟨48, 3⟩).1 = true ∧
    (seekRP fSig3 (initRR ⟨0, .healthy⟩) ⟨48, 3⟩).2.status = .healthy ∧
    ((seekRP fSig3 (seekRP fSig3 (initRR ⟨0, .healthy⟩) ⟨48, 3⟩).2
        (rrPos (seekRP fSig3 (initRR ⟨0, .healthy⟩) ⟨48, 3⟩).2)).2.chunkBegin ≠
      (seekRP fSig3 (initRR ⟨0, .healthy⟩) ⟨48, 3⟩).2.chunkBegin) := by
  refine ⟨?_, ?_, ?_⟩ <;> decide

/-- C9 as amended: on a healthy reader satisfying the state invariant,
`seek(pos())` succeeds, leaves the observable position `pos()`
unchanged, and a subsequent `read_record` yields the same record bytes
and `RecordPosition` as without the seek (the internal pair
`(chunk_begin_, index)` may change when the decoder is exhausted). -/
theorem c9_seek_pos (f : List ChunkMeta) (s : RRState)
    (hh : s.status = .healthy) (hinv : Inv s) :
    (seekRP f s (rrPos s)).1 = true ∧
    rrPos (seekRP f s (rrPos s)).2 = rrPos s ∧
    (readRecord f (seekRP f s (rrPos s)).2).1 = (readRecord f s).1 := by
  obtain ⟨hle, hpristine, hok, -⟩ := hinv
  have hdecok : s.dec.ok = true := hok hh
  by_cases hix : s.dec.index < s.dec.records.length
  · have hrp : rrPos s = ⟨s.chunkBegin, s.dec.index⟩ := by
      rw [rrPos, if_pos hix]
    have hsk : s.dec.index = 0 ∨ s.chunkBegin < s.src.pos := by
      by_cases h0 : s.dec.index = 0
      · exact Or.inl h0
      · refine Or.inr ?_
        rcases Nat.lt_or_ge s.chunkBegin s.src.pos with hlt | hge
        · exact hlt
        · exact absurd (hpristine (Nat.le_antisymm hle hge)).2.1 h0
    have hseek : seekRP f s ⟨s.chunkBegin, s.dec.index⟩ =
        (true, { s with dec := decSetIndex s.dec s.dec.index }) := by
      simp [seekRP, hh, hsk]
    have hseek' : seekRP f s ⟨s.chunkBegin, s.dec.index⟩ = (true, s) := by
      rw [hseek, decSetIndex_self (Nat.le_of_lt hix)]
    rw [hrp, hseek']
    exact ⟨rfl, hrp, rfl⟩
  · have hlen : s.dec.records.length ≤ s.dec.index := Nat.le_of_not_lt hix
    have hrp : rrPos s = ⟨s.src.pos, 0⟩ := by
      rw [rrPos, if_neg hix]
    by_cases hcb : s.src.pos = s.chunkBegin
    · obtain ⟨hrecs, hidx, -⟩ := hpristine hcb.symm
      have hseek : seekRP f s ⟨s.src.pos, 0⟩ =
          (true, { s with dec := decSetIndex s.dec 0 }) := by
        simp [seekRP, hh, hcb]
      have hsi : decSetIndex s.dec 0 = s.dec := by
        unfold decSetIndex
        rw [Nat.zero_min, ← hidx]
      have hseek' : seekRP f s ⟨s.src.pos, 0⟩ = (true, s) := by
        rw [hseek, hsi]
      rw [hrp, hseek']
      exact ⟨rfl, hrp, rfl⟩
    · have hseek : seekRP f s ⟨s.src.pos, 0⟩ =
          (true, { s with chunkBegin := s.src.pos, dec := decClear }) := by
        simp [seekRP, hh, hcb, srcSeek]
      have hps : popRecord s = none := by
        simp [popRecord, decReadRecord_of_exhausted hlen]
      have hpT : popRecord { s with chunkBegin := s.src.pos, dec := decClear } =
          none := rfl
      rw [hrp, hseek]
      refine ⟨rfl, ?_, ?_⟩
      · rw [rrPos]
        simp [decClear]
      · unfold readRecord
        simp only [hps, hpT]
        unfold readRecordSlow
        have hhT : ({ s with chunkBegin := s.src.pos, dec := decClear} : RRState).status =
            .healthy := hh
        rw [if_pos hhT, if_pos hh]
        obtain ⟨st, cb, d, rv, ry, sr⟩ := s
        exact readAux_cbdec f (readFuel f) st sr.pos decClear cb d rv ry sr rfl hdecok

/-- C9 witness: the amended idempotent seek at the already-read chunk
fixture. -/
theorem c9_seek_pos_witness :
    (seekRP fSig3 s6state (rrPos s6state)).1 = true ∧
    rrPos (seekRP fSig3 s6state (rrPos s6state)).2 = rrPos s6state ∧
    (readRecord fSig3 (seekRP fSig3 s6state (rrPos s6state)).2).1 =
      (readRecord fSig3 s6state).1 :=
  c9_seek_pos fSig3 s6state rfl (by decide)

/-! Monotonicity of the reported record positions. -/

theorem chunkSize_pos (c : ChunkMeta) : 0 < chunkSize c := by
  unfold chunkSize
  omega

theorem srcReadChunk_eof_state {f : List ChunkMeta} {st st' : SrcState}
    (h : srcReadChunk f st = (.eof, st')) : st' = st := by
  unfold srcReadChunk at h
  split at h
  · cases h
  · split at h
    · split at h
      · cases h
      · cases h
    · split at h
      · cases h; rfl
      · cases h

theorem srcReadChunk_fail_pos {f : List ChunkMeta} {st st' : SrcState}
    (h : srcReadChunk f st = (.fail, st')) : st'.pos = st.pos := by
  unfold srcReadChunk at h
  split at h
  · cases h; rfl
  · split at h
    · split at h
      · cases h; rfl
      · cases h
    · split at h
      · cases h
      · cases h; rfl

theorem srcReadChunk_ok_state {f : List ChunkMeta} {st : SrcState}
    {c : ChunkMeta} {st' : SrcState} (h : srcReadChunk f st = (.ok c, st')) :
    st'.pos = st.pos + chunkSize c ∧ st'.status = st.status := by
  unfold srcReadChunk at h
  split at h
  · cases h
  · split at h
    · split at h
      · cases h
      · cases h; exact ⟨rfl, rfl⟩
    · split at h
      · cases h
      · cases h

theorem srcRecover_pos_le (f : List ChunkMeta) (st : SrcState) :
    st.pos ≤ (srcRecover f st).2.pos := by
  unfold srcRecover
  rcases h : chunkStartingAt f 0 st.pos with _ | c <;> simp only [h]
  · split <;> omega
  · exact Nat.le_add_right _ _

theorem decReadRecord_some {d₀ : ChunkDecoder} {r : List Nat} {d : ChunkDecoder}
    (h : decReadRecord d₀ = some (r, d)) :
    d = { d₀ with index := d₀.index + 1 } ∧
    d₀.records.get? d₀.index = some r ∧ d₀.ok = true := by
  unfold decReadRecord at h
  split at h
  next hok =>
    split at h
    next r' heq => cases h; exact ⟨rfl, heq, hok⟩
    next heq => cases h
  next hok => cases h

theorem popRecord_eq_facts {s : RRState} {r : List Nat} {k : RecordPosition}
    {s' : RRState} (hInv : Inv s)
    (hp : popRecord s = some (some (r, k), s')) :
    k.chunkBegin = s.chunkBegin ∧ k.recordIndex = s.dec.index ∧
    s.dec.ok = true ∧ s.dec.index < s.dec.records.length ∧
    s'.chunkBegin = s.chunkBegin ∧ s'.src = s.src ∧
    s'.dec.index = k.recordIndex + 1 ∧
    s'.dec.index ≤ s'.dec.records.length ∧ s'.dec.ok = true ∧ Inv s' := by
  unfold popRecord at hp
  rcases hd : decReadRecord s.dec with _ | ⟨r₀, d⟩
  · rw [hd] at hp; cases hp
  · simp only [hd] at hp
    cases hp
    obtain ⟨hdd, hg, hok⟩ := decReadRecord_some hd
    subst hdd
    have hlt : s.dec.index < s.dec.records.length := by
      rcases List.get?_eq_some.mp hg with ⟨hlt, -⟩
      exact hlt
    refine ⟨rfl, by show s.dec.index + 1 - 1 = s.dec.index; omega, hok, hlt,
      rfl, rfl, by show s.dec.index + 1 = s.dec.index + 1 - 1 + 1; omega,
      by show s.dec.index + 1 ≤ s.dec.records.length; omega, hok,
      hInv.1, fun hx => ?_, fun _ => hok, fun _ => hok⟩
    exfalso
    have hrecs := (hInv.2.1 hx).1
    rw [hrecs] at hlt
    exact absurd hlt (by simp)

theorem recover_true_facts {f : List ChunkMeta} {s₁ : RRState}
    {b : Bool} {ropt : Option SkippedRegion} {s' : RRState}
    (hInv : Inv s₁) (h : recover f s₁ = (b, ropt, s')) :
    Inv s' ∧ s'.chunkBegin = s₁.chunkBegin ∧ s₁.src.pos ≤ s'.src.pos ∧
    (s'.dec = s₁.dec ∨ s'.dec.records.length ≤ s'.dec.index) := by
  rcases hr : s₁.recoverable with _ | _ | _
  · simp only [recover, hr, if_pos] at h
    cases h
    exact ⟨hInv, rfl, le_rfl, Or.inl rfl⟩
  · rcases hsr : srcRecover f s₁.src with ⟨region, src'⟩
    have hple : s₁.src.pos ≤ src'.pos := by
      have := srcRecover_pos_le f s₁.src
      rw [hsr] at this
      exact this
    simp only [recover, hr, hsr] at h
    cases h
    refine ⟨⟨le_trans hInv.1 hple, fun hx => ?_, fun _ => hInv.2.2.2 hr,
      fun hx => by simp at hx⟩, rfl, hple, Or.inl rfl⟩
    have hx' : s₁.chunkBegin = src'.pos := hx
    have h1 := hInv.1
    have heq : s₁.chunkBegin = s₁.src.pos := by omega
    exact hInv.2.1 heq
  · rcases hd : decRecover s₁.dec with _ | d
    · simp only [recover, hr, hd] at h
      cases h
      refine ⟨⟨hInv.1, fun _ => ⟨rfl, rfl, rfl⟩, fun _ => rfl,
        fun hx => by simp at hx⟩, rfl, le_rfl, Or.inr (by simp [decClear])⟩
    · simp only [recover, hr, hd] at h
      cases h
      unfold decRecover at hd
      split at hd
      next hok =>
        cases hd
        refine ⟨⟨hInv.1, fun hx => hInv.2.1 hx, fun _ => hok,
          fun hx => by simp at hx⟩, rfl, le_rfl, Or.inl rfl⟩
      next hok =>
        split at hd
        next hro =>
          cases hd
          refine ⟨⟨hInv.1, fun hx => ?_, fun _ => rfl,
            fun hx => by simp at hx⟩, rfl, le_rfl, Or.inr ?_⟩
          · obtain ⟨h1, h2, h3⟩ := hInv.2.1 hx
            exact absurd h3 (by rw [Bool.not_eq_true]; exact Bool.eq_false_iff.mpr (fun hc => hok (by rw [hc])))
          · show (s₁.dec.records.take s₁.dec.index).length ≤ s₁.dec.index
            rw [List.length_take]
            exact Nat.min_le_left _ _
        next hro => cases hd

theorem tryRecovery_true_facts {f : List ChunkMeta} {s₁ s₂ : RRState}
    (hInv : Inv s₁) (h : tryRecovery f s₁ = (true, s₂)) :
    Inv s₂ ∧ s₂.chunkBegin = s₁.chunkBegin ∧ s₁.src.pos ≤ s₂.src.pos ∧
    (s₂.dec = s₁.dec ∨ s₂.dec.records.length ≤ s₂.dec.index) := by
  unfold tryRecovery at h
  rcases hcb : s₁.recovery with _ | cb
  · rw [hcb] at h; cases h
  · rw [hcb] at h
    rcases hrc : recover f s₁ with ⟨b₀, ropt, s'⟩
    have hfacts := recover_true_facts hInv hrc
    rcases b₀ <;> rcases ropt with _ | region <;> simp only [hrc] at h
    · cases h
    · cases h
    · cases h
      exact hfacts
    · by_cases hcr : cb region = true
      · rw [if_pos hcr] at h
        cases h
        exact hfacts
      · rw [if_neg hcr] at h
        cases h

theorem readChunk_state_facts {f : List ChunkMeta} {t : RRState}
    {b : Bool} {s₁ : RRState} (h : readChunk f t = (b, s₁)) (_hInv : Inv t) :
    Inv s₁ ∧ t.src.pos ≤ s₁.src.pos ∧ s₁.chunkBegin = t.src.pos := by
  unfold readChunk at h
  split at h
  next src' heq =>
    cases h
    have he := srcReadChunk_eof_state heq
    subst he
    exact ⟨⟨le_rfl, fun _ => ⟨rfl, rfl, rfl⟩, fun _ => rfl, fun _ => rfl⟩,
      le_rfl, rfl⟩
  next src' heq =>
    cases h
    have hp := srcReadChunk_fail_pos heq
    refine ⟨⟨?_, fun _ => ⟨rfl, rfl, rfl⟩, fun hx => absurd hx ?_,
      fun _ => rfl⟩, ?_, rfl⟩
    · show t.src.pos ≤ src'.pos
      omega
    · exact srcReadChunk_fail_status heq
    · show t.src.pos ≤ src'.pos
      omega
  next c src' heq =>
    obtain ⟨hpos, hst⟩ := srcReadChunk_ok_state heq
    have hcs := chunkSize_pos c
    split at h
    next hdok =>
      cases h
      refine ⟨⟨?_, fun hx => ?_, fun _ => hdok, fun _ => hdok⟩, ?_, rfl⟩
      · show t.src.pos ≤ src'.pos
        omega
      · exfalso
        have : t.src.pos = src'.pos := hx
        omega
      · show t.src.pos ≤ src'.pos
        omega
    next hdok =>
      cases h
      refine ⟨⟨?_, fun hx => ?_, fun hx => by simp at hx,
        fun hx => by simp at hx⟩, ?_, rfl⟩
      · show t.src.pos ≤ src'.pos
        omega
      · exfalso
        have : t.src.pos = src'.pos := hx
        omega
      · show t.src.pos ≤ src'.pos
        omega

theorem rpLe_of_pos_le {s : RRState} {k : RecordPosition} (hInv : Inv s)
    (hle : s.src.pos ≤ k.chunkBegin) :
    rpLe ⟨s.chunkBegin, s.dec.index⟩ k := by
  rcases Nat.lt_or_ge s.chunkBegin k.chunkBegin with hlt | hge
  · exact Or.inl hlt
  · have h1 := hInv.1
    have heq : s.chunkBegin = s.src.pos := by omega
    refine Or.inr ⟨?_, ?_⟩
    · show s.chunkBegin = k.chunkBegin
      omega
    · show s.dec.index ≤ k.recordIndex
      rw [(hInv.2.1 heq).2.1]
      exact Nat.zero_le _

theorem c8_aux (f : List ChunkMeta) :
    ∀ fuel (t : RRState) (r : List Nat) (k : RecordPosition) (t' : RRState),
      Inv t → readAux f fuel t = (some (r, k), t') →
      t.src.pos ≤ k.chunkBegin ∧ t'.chunkBegin = k.chunkBegin ∧
      t'.dec.index = k.recordIndex + 1 ∧
      t'.dec.index ≤ t'.dec.records.length ∧ t'.dec.ok = true ∧ Inv t'
  | 0, t, r, k, t', _, h => by cases h
  | fuel + 1, t, r, k, t', hInv, h => by
      unfold readAux at h
      by_cases hok : t.dec.ok = true
      · rw [if_pos hok] at h
        rcases hrc : readChunk f t with ⟨b, s₁⟩
        obtain ⟨hInv₁, hple₁, hcb₁⟩ := readChunk_state_facts hrc hInv
        rcases b
        · simp only [hrc] at h
          rcases htr : tryRecovery f s₁ with ⟨b₂, s₂⟩
          simp only [htr] at h
          rcases b₂
          · cases h
          · obtain ⟨hInv₂, hcb₂, hple₂, hdec₂⟩ := tryRecovery_true_facts hInv₁ htr
            rcases hp : popRecord s₂ with _ | ⟨ro, sx⟩
            · simp only [hp] at h
              obtain ⟨ha, hb', hc', hd', he', hf'⟩ :=
                c8_aux f fuel s₂ r k t' hInv₂ h
              exact ⟨le_trans hple₁ (le_trans hple₂ ha), hb', hc', hd', he', hf'⟩
            · simp only [hp] at h
              cases h
              obtain ⟨hk₁, hk₂, -, -, hs₁, -, hs₃, hs₄, hs₅, hs₆⟩ :=
                popRecord_eq_facts hInv₂ hp
              refine ⟨?_, ?_, hs₃, hs₄, hs₅, hs₆⟩
              · rw [hk₁, hcb₂, hcb₁]
              · rw [hs₁, hk₁]
        · simp only [hrc] at h
          rcases hp : popRecord s₁ with _ | ⟨ro, sx⟩
          · simp only [hp] at h
            obtain ⟨ha, hb', hc', hd', he', hf'⟩ :=
              c8_aux f fuel s₁ r k t' hInv₁ h
            exact ⟨le_trans hple₁ ha, hb', hc', hd', he', hf'⟩
          · simp only [hp] at h
            cases h
            obtain ⟨hk₁, hk₂, -, -, hs₁, -, hs₃, hs₄, hs₅, hs₆⟩ :=
              popRecord_eq_facts hInv₁ hp
            refine ⟨?_, ?_, hs₃, hs₄, hs₅, hs₆⟩
            · rw [hk₁, hcb₁]
            · rw [hs₁, hk₁]
      · rw [if_neg hok] at h
        have hInvF : Inv (decFail t) := by
          refine ⟨hInv.1, fun hx => ?_, fun hx => by simp [decFail] at hx,
            fun hx => by simp [decFail] at hx⟩
          exact absurd (hInv.2.1 hx).2.2 hok
        rcases htr : tryRecovery f (decFail t) with ⟨b₂, s₂⟩
        simp only [htr] at h
        rcases b₂
        · cases h
        · obtain ⟨hInv₂, hcb₂, hple₂, hdec₂⟩ := tryRecovery_true_facts hInvF htr
          rcases hp : popRecord s₂ with _ | ⟨ro, sx⟩
          · simp only [hp] at h
            obtain ⟨ha, hb', hc', hd', he', hf'⟩ :=
              c8_aux f fuel s₂ r k t' hInv₂ h
            exact ⟨le_trans hple₂ ha, hb', hc', hd', he', hf'⟩
          · simp only [hp] at h
            cases h
            exfalso
            obtain ⟨-, -, hok₂, hlt₂, -⟩ := popRecord_eq_facts hInv₂ hp
            rcases hdec₂ with heq | hex
            · rw [heq] at hok₂
              exact hok hok₂
            · omega

theorem c8_read_facts {f : List ChunkMeta} {s : RRState} {r : List Nat}
    {k : RecordPosition} {s' : RRState} (hInv : Inv s)
    (h : readRecord f s = (some (r, k), s')) :
    rpLe ⟨s.chunkBegin, s.dec.index⟩ k ∧ s'.chunkBegin = k.chunkBegin ∧
    s'.dec.index = k.recordIndex + 1 ∧
    s'.dec.index ≤ s'.dec.records.length ∧ s'.dec.ok = true ∧ Inv s' := by
  unfold readRecord at h
  rcases hp : popRecord s with _ | ⟨ro, sx⟩
  · simp only [hp] at h
    unfold readRecordSlow at h
    by_cases hh : s.status = .healthy
    · rw [if_pos hh] at h
      obtain ⟨ha, hb', hc', hd', he', hf'⟩ := c8_aux f (readFuel f) s r k s' hInv h
      exact ⟨rpLe_of_pos_le hInv ha, hb', hc', hd', he', hf'⟩
    · rw [if_neg hh] at h
      rcases htr : tryRecovery f s with ⟨b₂, s₂⟩
      simp only [htr] at h
      rcases b₂
      · cases h
      · obtain ⟨hInv₂, hcb₂, hple₂, hdec₂⟩ := tryRecovery_true_facts hInv htr
        rcases hp₂ : popRecord s₂ with _ | ⟨ro, sx⟩
        · simp only [hp₂] at h
          obtain ⟨ha, hb', hc', hd', he', hf'⟩ :=
            c8_aux f (readFuel f) s₂ r k s' hInv₂ h
          exact ⟨rpLe_of_pos_le hInv (le_trans hple₂ ha), hb', hc', hd', he', hf'⟩
        · simp only [hp₂] at h
          cases h
          obtain ⟨hk₁, hk₂, hok₂, hlt₂, hs₁, -, hs₃, hs₄, hs₅, hs₆⟩ :=
            popRecord_eq_facts hInv₂ hp₂
          refine ⟨?_, by rw [hs₁, hk₁], hs₃, hs₄, hs₅, hs₆⟩
          rcases hdec₂ with heq | hex
          · refine Or.inr ⟨?_, ?_⟩
            · show s.chunkBegin = k.chunkBegin
              rw [hk₁, hcb₂]
            · show s.dec.index ≤ k.recordIndex
              rw [hk₂, heq]
          · exact absurd hlt₂ (Nat.not_lt.mpr hex)
  · simp only [hp] at h
    cases h
    obtain ⟨hk₁, hk₂, hok₂, hlt₂, hs₁, -, hs₃, hs₄, hs₅, hs₆⟩ :=
      popRecord_eq_facts hInv hp
    exact ⟨Or.inr ⟨hk₁.symm, le_of_eq hk₂.symm⟩, by rw [hs₁, hk₁], hs₃, hs₄,
      hs₅, hs₆⟩

/-- C8: between two consecutive successful `read_record` calls with no
intervening seek, the reported `RecordPosition` keys are monotonically
non-decreasing in lexicographic order. -/
theorem c8_monotone (f : List ChunkMeta) (s : RRState) (hInv : Inv s)
    (r₁ : List Nat) (k₁ : RecordPosition) (s₁ : RRState)
    (r₂ : List Nat) (k₂ : RecordPosition) (s₂ : RRState)
    (h₁ : readRecord f s = (some (r₁, k₁), s₁))
    (h₂ : readRecord f s₁ = (some (r₂, k₂), s₂)) :
    rpLe k₁ k₂ := by
  obtain ⟨-, hcb₁, hidx₁, -, -, hInv₁⟩ := c8_read_facts hInv h₁
  obtain ⟨hb, -⟩ := c8_read_facts hInv₁ h₂
  rw [hcb₁, hidx₁] at hb
  rcases hb with hlt | ⟨heq, hle⟩
  · exact Or.inl hlt
  · have heq' : k₁.chunkBegin = k₂.chunkBegin := heq
    have hle' : k₁.recordIndex + 1 ≤ k₂.recordIndex := hle
    exact Or.inr ⟨heq', by omega⟩

/-- C8 witness: the two records of the two-chunk file, read
consecutively from the freshly opened reader, have keys `(48, 0)` and
`(48, 1)`. -/
theorem c8_monotone_witness : rpLe ⟨48, 0⟩ ⟨48, 1⟩ :=
  c8_monotone fSig2 (initRR ⟨0, .healthy⟩) (by decide)
    [97] ⟨48, 0⟩
    ⟨.healthy, 48, ⟨true, true, [[97], [98]], 1⟩, .no, none, ⟨104, .healthy⟩⟩
    [98] ⟨48, 1⟩
    ⟨.healthy, 48, ⟨true, true, [[97], [98]], 2⟩, .no, none, ⟨104, .healthy⟩⟩
    rfl rfl

end Riegeli
